import Mathlib

/-!
# Shallow embedding of the Rust_visualizer audio pipeline (src/audio.rs)

This file embeds the audio analysis core of the repository:

* `audio_analysis_system` (src/audio.rs:477-622) — the fixed-cadence spectral
  analysis tick.  Sample magnitudes and frequencies are `f32` in the source;
  they are modelled as `ℚ` (the claims under study are structural and do not
  hinge on rounding).  The FFT itself is performed by the external crate
  `spectrum_analyzer` (not code of this repository), so the per-tick spectrum
  — the ascending-frequency list of `(frequency, magnitude)` pairs returned by
  `samples_fft_to_spectrum` — enters the model as an input of the tick, as do
  the `powf`-computed band limits.  The source stores `flux` and `volume` as
  square roots (`sqrt` of a sum of squares); the model keeps the radicands
  (`fluxSq`, `volumeSq`) in the state, and theorems about the published
  `flux`/`volume` values apply `Real.sqrt` to them.

* `manage_audio_playback` (src/audio.rs:229-335) — the source-transition
  system.  Its effects (rodio sink, cpal stream, filesystem, decoder) are
  modelled through an explicit environment `AudioEnv`; a Rust
  `panic!`/`expect`/`unwrap` failure is modelled as `Except.error` carrying
  the panic message.  Bevy's resource change detection (`Res::is_changed`)
  is write-based, not value-based: any mutable write to the resource marks
  it changed even if the written value equals the old one (the UI in
  src/ui.rs:304-315 writes `selected_source.0` unconditionally on click).
  This is modelled by a `selectedChanged` flag set by every `setSource`
  write and consumed by each run of the system.
-/

namespace RustViz

/-- The fixed analysis window size `fft_size` (src/audio.rs:493). -/
def fft_size : ℕ := 4096

/-- The `AudioAnalysis` resource (src/audio.rs:214-225): the published
snapshot read by the visualizations.  `volumeSq` and `fluxSq` are the
radicands of the source's `volume` and `flux` fields (the source applies
`sqrt` when storing them; `flux = 0` in the mismatch branch corresponds to
`fluxSq = 0` since `sqrt 0 = 0`). -/
structure AudioAnalysis where
  frequency_bins : List ℚ
  bass : ℚ
  mid : ℚ
  treble : ℚ
  treble_average : ℚ
  volumeSq : ℚ
  fluxSq : ℚ
  previous_spectrum : List (ℚ × ℚ)
deriving Repr, DecidableEq

/-- Derived `Default` for `AudioAnalysis` (src/audio.rs:214):
empty bins, zero scalars, empty previous spectrum. -/
def initialAnalysis : AudioAnalysis :=
  ⟨[], 0, 0, 0, 0, 0, 0, []⟩

/-- The analysis window: the first `fft_size` buffered samples, in order
(src/audio.rs:502 `iter().copied().take(fft_size)`). -/
def analysisWindow (buf : List ℚ) : List ℚ := buf.take fft_size

/-- Number of samples drained from the front of the buffer after a
successful tick (src/audio.rs:504 `buffer_len.saturating_sub(fft_size / 2)`;
`Nat` subtraction is saturating). -/
def drainAmount (bufferLen : ℕ) : ℕ := bufferLen - fft_size / 2

/-- RMS radicand of the raw sample window (src/audio.rs:541-542):
`volume = sqrt(Σ s² / len)`; this is the value under the square root. -/
def volumeSqOf (w : List ℚ) : ℚ := (w.map fun s => s * s).sum / (w.length : ℚ)

/-- Spectral-flux radicand (src/audio.rs:552-563): if a previous spectrum
exists and the bin counts match, the sum of squared per-bin magnitude
differences (the source stores its square root as `flux`); otherwise `0`. -/
def fluxSqOf (prev cur : List (ℚ × ℚ)) : ℚ :=
  if prev ≠ [] ∧ prev.length = cur.length then
    (List.zipWith (fun c p => (c.2 - p.2) ^ 2) cur prev).sum
  else 0

/-- One step of the band-assignment scan (src/audio.rs:579-581): the current
band index advances by one exactly when it is below `numBands - 1` and the
bin's frequency strictly exceeds the current band's upper limit. -/
def bandStep (limits : List ℚ) (numBands cb : ℕ) (f : ℚ) : ℕ :=
  if cb < numBands - 1 ∧ limits.getD cb 0 < f then cb + 1 else cb

/-- The per-bin band indices produced by the scan: for each spectral bin, the
band into which its magnitude is accumulated (the value of `current_band`
after the possible advance, src/audio.rs:578-582). -/
def bandIndices (limits : List ℚ) (numBands : ℕ) : ℕ → List ℚ → List ℕ
  | _, [] => []
  | cb, f :: rest =>
      let cb' := bandStep limits numBands cb f
      cb' :: bandIndices limits numBands cb' rest

/-- The source's single-pass loop over the spectrum (src/audio.rs:575-587):
accumulates each bin's magnitude into `new_bins[current_band]` and sums
magnitudes of bins above 4000 Hz into `treble_val`. -/
def bandLoop (limits : List ℚ) (numBands : ℕ) :
    ℕ → List ℚ → ℚ → List (ℚ × ℚ) → List ℚ × ℚ
  | _, bins, tre, [] => (bins, tre)
  | cb, bins, tre, (f, v) :: rest =>
      let cb' := bandStep limits numBands cb f
      let bins' := bins.set cb' (bins.getD cb' 0 + v)
      let tre' := if (4000 : ℚ) < f then tre + v else tre
      bandLoop limits numBands cb' bins' tre' rest

/-- Accumulated `new_bins` of a tick: the band loop started from band 0 on a zero vector
(src/audio.rs:567, 575-587). -/
def newBins (limits : List ℚ) (numBands : ℕ) (spectrum : List (ℚ × ℚ)) : List ℚ :=
  (bandLoop limits numBands 0 (List.replicate numBands 0) 0 spectrum).1

/-- Raw `treble_val` of a tick: the sum of magnitudes of spectral bins with
frequency strictly above 4000 Hz (src/audio.rs:576, 584-586). -/
def trebleRaw (limits : List ℚ) (numBands : ℕ) (spectrum : List (ℚ × ℚ)) : ℚ :=
  (bandLoop limits numBands 0 (List.replicate numBands 0) 0 spectrum).2

/-- Rust `Vec::resize(n, 0.0)` (src/audio.rs:592): truncates to `n` when the
vector is longer, appends zeros when it is shorter; retained elements are
unchanged. -/
def resizeVec (l : List ℚ) (n : ℕ) : List ℚ :=
  l.take n ++ List.replicate (n - l.length) 0

/-- The smoothing factor (src/audio.rs:590 `let smoothing = 0.5`). -/
def smoothing : ℚ := 1 / 2

/-- One exponential-smoothing step (src/audio.rs:595-598):
`old * smoothing + new * (1 - smoothing)`. -/
def smoothStep (old new : ℚ) : ℚ := old * smoothing + new * (1 - smoothing)

/-- The tick's inputs that come from outside the analysis state: the spectrum
returned by the external FFT crate for this window, the `powf`-computed
logarithmic band limits (src/audio.rs:571-573), and `config.num_bands`. -/
structure TickInput where
  spectrum : List (ℚ × ℚ)
  limits : List ℚ
  numBands : ℕ

/-- The smoothed band array of a tick (src/audio.rs:589-598): the prior
array — resized by `Vec::resize(num_bands, 0.0)` when its length differs
from `num_bands` — smoothed elementwise against the freshly accumulated
`new_bins`. -/
def smoothedBins (a : AudioAnalysis) (inp : TickInput) : List ℚ :=
  List.zipWith smoothStep
    (if a.frequency_bins.length ≠ inp.numBands then
       resizeVec a.frequency_bins inp.numBands
     else a.frequency_bins)
    (newBins inp.limits inp.numBands inp.spectrum)

/-- The body of `audio_analysis_system` for an active source
(src/audio.rs:477-622), from the buffer-length guard onward.  Returns the
updated `AudioAnalysis` and the updated sample buffer.  When fewer than
`fft_size` samples are buffered the tick is skipped: nothing is drained and
the analysis is returned unchanged (src/audio.rs:498-499, 523-525).
`bass`/`mid`/`treble` sum the first quarter, the next half, and the last
quarter of the smoothed array (src/audio.rs:603-618). -/
def analysisTick (a : AudioAnalysis) (buf : List ℚ) (inp : TickInput) :
    AudioAnalysis × List ℚ :=
  if buf.length < fft_size then (a, buf)
  else
    let bins' := smoothedBins a inp
    (⟨bins',
      (bins'.take (inp.numBands / 4)).sum,
      ((bins'.drop (inp.numBands / 4)).take (inp.numBands / 2)).sum,
      (bins'.drop (3 * inp.numBands / 4)).sum,
      smoothStep a.treble_average (trebleRaw inp.limits inp.numBands inp.spectrum),
      volumeSqOf (analysisWindow buf),
      fluxSqOf a.previous_spectrum inp.spectrum,
      inp.spectrum⟩,
     buf.drop (drainAmount buf.length))

/-! ## Source management (src/audio.rs:176-335) -/

/-- The `AudioSource` resource (src/audio.rs:177-183). -/
inductive AudioSrc where
  | File (path : String)
  | Microphone
  | NoSource
deriving Repr, DecidableEq

/-- The `PlaybackInfo` resource (src/audio.rs:149-161).  `Instant`s are
modelled as rational timestamps supplied by the caller (`now`). -/
structure PlaybackInfo where
  playing : Bool
  speed : ℚ
  position : ℚ
  duration : ℚ
  seekTo : Option ℚ
  lastUpdate : Option ℚ
  positionAtLastUpdate : ℚ
deriving Repr, DecidableEq

/-- Reset of playback state, `PlaybackInfo::reset` (src/audio.rs:164-173). -/
def resetPlayback : PlaybackInfo :=
  ⟨false, 1, 0, 0, none, none, 0⟩

/-- The world visible to `manage_audio_playback`: filesystem, decoder, and
audio devices.  Each `Option`/`Bool` marks a fallible external call; the
source reacts to a failure either gracefully (the Symphonia duration probe)
or with `expect`/`unwrap`, i.e. a process panic. -/
structure AudioEnv where
  /-- Result of `get_duration_with_symphonia` (src/audio.rs:20-43): `Ok duration` or `Err`. -/
  probeDuration : String → Option ℚ
  /-- Result of the filesystem read (src/audio.rs:268): file bytes, or failure. -/
  readFile : String → Option (List ℕ)
  /-- Result of `Decoder::new` (src/audio.rs:270): the decoded stream's sample rate, or failure. -/
  decode : List ℕ → Option ℕ
  /-- Value of `host.default_input_device()` (src/audio.rs:302). -/
  defaultInputDevice : Option String
  /-- Names from `host.input_devices()` (src/audio.rs:297). -/
  inputDevices : List String
  /-- Sample rate from `device.default_input_config()` (src/audio.rs:305-307). -/
  deviceConfig : String → Option ℕ
  /-- whether `device.build_input_stream` succeeds (src/audio.rs:317-326). -/
  buildStream : String → Bool
  /-- whether `stream.play()` succeeds (src/audio.rs:327). -/
  playStream : Bool

/-- The state touched by `manage_audio_playback`.  `selectedChanged` models
Bevy's write-based change detection on `SelectedAudioSource`; `sinkQueue`
lists the source descriptors appended to the rodio sink; `teardownCount` is
ghost instrumentation counting executions of the stop/clear/reset sequence
(src/audio.rs:244-248). -/
structure EngineState where
  selected : AudioSrc
  selectedChanged : Bool
  sinkQueue : List String
  micActive : Bool
  audioSamples : List ℚ
  playback : PlaybackInfo
  audioInfo : Option ℕ
  analysis : AudioAnalysis
  teardownCount : ℕ
deriving Repr, DecidableEq

/-- A UI write of the `SelectedAudioSource` resource (src/ui.rs:304-315
assigns `selected_source.0` unconditionally on click).  Any `ResMut` write
marks the resource changed, whether or not the value differs. -/
def setSource (v : AudioSrc) (st : EngineState) : EngineState :=
  { st with selected := v, selectedChanged := true }

/-- The system `manage_audio_playback` (src/audio.rs:229-335).  Returns `.error msg`
when the source panics (`expect`/`unwrap`) with that message; `.ok` with the
new state otherwise.  Running the system consumes the change flag. -/
def manageAudioPlayback (env : AudioEnv) (selectedMic : Option String)
    (now : ℚ) (st : EngineState) : Except String EngineState :=
  if !st.selectedChanged then .ok { st with selectedChanged := false }
  else
    -- Stop all current audio and reset state before starting a new source
    -- (src/audio.rs:244-248).
    let st := { st with
      selectedChanged := false
      sinkQueue := []
      micActive := false
      audioSamples := []
      playback := resetPlayback
      teardownCount := st.teardownCount + 1 }
    match st.selected with
    | .File p =>
        -- Duration probe failure is handled gracefully (src/audio.rs:254-266).
        let d := (env.probeDuration p).getD 0
        match env.readFile p with
        | none => .error "Failed to read music file for playback"
        | some bytes =>
          match env.decode bytes with
          | none => .error "called Option.unwrap on a None value"
          | some rate =>
            .ok { st with
              audioInfo := some rate
              playback := { st.playback with
                duration := d, playing := true,
                lastUpdate := some now, positionAtLastUpdate := 0 }
              sinkQueue := [p] }
    | .Microphone =>
        let dev? :=
          match selectedMic with
          | some nm => if nm ∈ env.inputDevices then some nm else env.defaultInputDevice
          | none => env.defaultInputDevice
        match dev? with
        | none => .error "No default audio input device found"
        | some dev =>
          match env.deviceConfig dev with
          | none => .error "Failed to get default input config"
          | some rate =>
            if env.buildStream dev then
              if env.playStream then
                .ok { st with audioInfo := some rate, micActive := true }
              else .error "Failed to play audio stream"
            else .error "Failed to build input stream"
    | .NoSource => .ok st

/-! ## Spec-modelled comparison targets

The following definitions are written from the specification's words, not
from the source (the source computes no centroid or rolloff, and assigns
bins to bands by the single-step scan rather than by a lowest-index search);
they exist to be compared against the embedded code. -/

/-- Modelled from the spec: `centroid` = magnitude-weighted mean frequency
`Σ(freq·mag) / Σ(mag)`, guarded against division by zero when the total
magnitude is 0. -/
def specCentroid (sp : List (ℚ × ℚ)) : ℚ :=
  if (sp.map Prod.snd).sum = 0 then 0
  else (sp.map fun b => b.1 * b.2).sum / (sp.map Prod.snd).sum

/-- Cumulative scan for the spec's rolloff: first frequency at which the
running magnitude total reaches the threshold (0 if never reached). -/
def rolloffFrom (threshold : ℚ) : ℚ → List (ℚ × ℚ) → ℚ
  | _, [] => 0
  | acc, (f, v) :: rest =>
      if threshold ≤ acc + v then f else rolloffFrom threshold (acc + v) rest

/-- Modelled from the spec: `rolloff` = the lowest frequency at which
cumulative magnitude in ascending-frequency order first reaches 85% of the
total magnitude. -/
def specRolloff (sp : List (ℚ × ℚ)) : ℚ :=
  rolloffFrom (85 / 100 * (sp.map Prod.snd).sum) 0 sp

/-- Modelled from the spec: the lowest-index band whose upper edge the
bin's frequency does not exceed. -/
def specLowestBand (limits : List ℚ) (f : ℚ) : ℕ :=
  limits.findIdx fun e => f ≤ e

/-- A rational `c` is published as a numeric output of the snapshot: it
equals one of the scalar fields or occurs among the band values.  The
source stores `volume`/`flux` as the square roots of `volumeSq`/`fluxSq`,
so for a nonnegative `c` "the stored value is `c`" is `field = c * c`; both
the radicand and the squared comparison are included. -/
def publishesScalar (a : AudioAnalysis) (c : ℚ) : Prop :=
  a.bass = c ∨ a.mid = c ∨ a.treble = c ∨ a.treble_average = c ∨
  a.volumeSq = c ∨ a.volumeSq = c * c ∨ a.fluxSq = c ∨ a.fluxSq = c * c ∨
  c ∈ a.frequency_bins

instance (a : AudioAnalysis) (c : ℚ) : Decidable (publishesScalar a c) := by
  unfold publishesScalar
  infer_instance

/-! ## Concrete fixtures used by counterexamples and witnesses -/

/-- A 4096-sample silent buffer (enough data for one tick). -/
def buf1 : List ℚ := List.replicate 4096 0

/-- Tick input with a two-bin spectrum whose spec-centroid is
`(100·1 + 200·3)/(1+3) = 175` and spec-rolloff is `200`
(`0.85·4 = 3.4` is first reached at 200 Hz). -/
def inp1 : TickInput := ⟨[(100, 1), (200, 3)], [200, 2000, 20000], 3⟩

/-- The snapshot published by one tick from the default state on `inp1`. -/
def out1 : AudioAnalysis := (analysisTick initialAnalysis buf1 inp1).1

/-- Prior state with two smoothed bands, both 1 (band count was 2). -/
def a3 : AudioAnalysis := ⟨[1, 1], 0, 0, 0, 0, 0, 0, []⟩

/-- Tick input after `numBands` was reconfigured from 2 to 4, with an empty
spectrum (no new energy). -/
def inp3 : TickInput := ⟨[], [200, 2000, 20000], 4⟩

/-- Prior state retaining a previous spectrum (one bin of magnitude 2). -/
def a10 : AudioAnalysis := ⟨[], 0, 0, 0, 0, 0, 0, [(100, 2)]⟩

/-- Tick input whose spectrum has one bin of magnitude 5 at the same
frequency (bin counts match `a10.previous_spectrum`). -/
def inp10 : TickInput := ⟨[(100, 5)], [200, 2000, 20000], 3⟩

/-- An environment in which every external call succeeds. -/
def env0 : AudioEnv :=
  ⟨fun _ => some 10, fun _ => some [1], fun _ => some 44100,
   some "default-mic", [], fun _ => some 48000, fun _ => true, true⟩

/-- An environment in which `std::fs::read` fails for every path. -/
def envNoFile : AudioEnv :=
  ⟨fun _ => none, fun _ => none, fun _ => none,
   none, [], fun _ => none, fun _ => false, false⟩

/-- Initial engine state: no source, nothing buffered, nothing playing. -/
def st0 : EngineState :=
  ⟨.NoSource, false, [], false, [], resetPlayback, none, initialAnalysis, 0⟩

/-- The state produced by `manageAudioPlayback env0` after
`setSource .Microphone st0`: mic running, one teardown performed. -/
def s1Mic : EngineState :=
  ⟨.Microphone, false, [], true, [], resetPlayback, some 48000, initialAnalysis, 1⟩

/-- The state produced by `manageAudioPlayback env0` after
`setSource .NoSource st0`: silent, one teardown performed. -/
def s1None : EngineState :=
  ⟨.NoSource, false, [], false, [], resetPlayback, none, initialAnalysis, 1⟩

/-- Prior state with three smoothed bands matching `inp1.numBands`. -/
def a9 : AudioAnalysis := ⟨[1, 2, 3], 0, 0, 0, 7, 0, 0, []⟩

/-- Engine state mid-playback of an old source whose analysis retains a
previous spectrum (`a10`), with a pending source change. -/
def stPrev : EngineState :=
  ⟨.NoSource, true, ["old.mp3"], false, [5], resetPlayback, some 44100, a10, 0⟩

/-- The state produced by `manageAudioPlayback env0` from `stPrev`: torn
down, but the analysis (and its `previous_spectrum`) untouched. -/
def sPrev : EngineState :=
  ⟨.NoSource, false, [], false, [], resetPlayback, some 44100, a10, 1⟩

/-! ## List helper lemmas -/

lemma getD_zipWith (f : ℚ → ℚ → ℚ) :
    ∀ (l₁ l₂ : List ℚ) (i : ℕ), i < l₁.length → i < l₂.length →
      (List.zipWith f l₁ l₂).getD i 0 = f (l₁.getD i 0) (l₂.getD i 0)
  | [], _, i, h, _ => by simp at h
  | _ :: _, [], i, _, h => by simp at h
  | a :: l₁, b :: l₂, 0, _, _ => by simp
  | a :: l₁, b :: l₂, (i + 1), h₁, h₂ => by
      simpa using getD_zipWith f l₁ l₂ i (by simpa using h₁) (by simpa using h₂)

lemma getD_set (x : ℚ) :
    ∀ (l : List ℚ) (i j : ℕ),
      (l.set i x).getD j 0 = if j = i ∧ i < l.length then x else l.getD j 0
  | [], i, j => by simp
  | a :: t, 0, 0 => by simp
  | a :: t, 0, (j + 1) => by simp
  | a :: t, (i + 1), 0 => by simp
  | a :: t, (i + 1), (j + 1) => by
      simpa [Nat.succ_lt_succ_iff] using getD_set x t i j

lemma getD_replicate_zero : ∀ (k j : ℕ), (List.replicate k (0 : ℚ)).getD j 0 = 0
  | 0, _ => by simp
  | (k + 1), 0 => by simp
  | (k + 1), (j + 1) => by simp [getD_replicate_zero k j]

lemma getD_take_of_lt (l : List ℚ) :
    ∀ (k i : ℕ), i < k → (l.take k).getD i 0 = l.getD i 0 := by
  induction l with
  | nil => intro k i _; simp
  | cons a t ih =>
      intro k i hik
      cases k with
      | zero => omega
      | succ k =>
          cases i with
          | zero => simp
          | succ i => simpa using ih k i (by omega)

lemma getD_drop (l : List ℚ) :
    ∀ (k i : ℕ), (l.drop k).getD i 0 = l.getD (k + i) 0 := by
  induction l with
  | nil => intro k i; simp
  | cons a t ih =>
      intro k i
      cases k with
      | zero => simp
      | succ k => simp [Nat.succ_add, ih k i]

lemma sum_eq_range_getD (l : List ℚ) :
    l.sum = ∑ i in Finset.range l.length, l.getD i 0 := by
  induction l with
  | nil => simp
  | cons a t ih =>
      rw [List.sum_cons, List.length_cons, Finset.sum_range_succ']
      simp [ih, add_comm]

lemma sum_take_eq_range (l : List ℚ) (k : ℕ) (h : k ≤ l.length) :
    (l.take k).sum = ∑ i in Finset.range k, l.getD i 0 := by
  rw [sum_eq_range_getD, List.length_take, Nat.min_eq_left h]
  exact Finset.sum_congr rfl fun i hi =>
    getD_take_of_lt l k i (Finset.mem_range.mp hi)

lemma sum_drop_eq_range (l : List ℚ) (k : ℕ) :
    (l.drop k).sum = ∑ i in Finset.range (l.length - k), l.getD (k + i) 0 := by
  rw [sum_eq_range_getD, List.length_drop]
  exact Finset.sum_congr rfl fun i _ => getD_drop l k i

lemma sum_drop_take_eq_range (l : List ℚ) (j k : ℕ) (h : j + k ≤ l.length) :
    ((l.drop j).take k).sum = ∑ i in Finset.range k, l.getD (j + i) 0 := by
  rw [sum_take_eq_range (l.drop j) k (by simpa [List.length_drop] using by omega)]
  exact Finset.sum_congr rfl fun i _ => getD_drop l j i

lemma length_resizeVec (l : List ℚ) (n : ℕ) : (resizeVec l n).length = n := by
  simp [resizeVec]
  omega

lemma getD_resizeVec (l : List ℚ) (n i : ℕ) (hi : i < n) :
    (resizeVec l n).getD i 0 = if i < l.length then l.getD i 0 else 0 := by
  by_cases h : i < l.length
  · rw [if_pos h]
    have htake : i < (l.take n).length := by simp; omega
    rw [resizeVec, List.getD_append _ _ _ _ htake]
    exact getD_take_of_lt l n i hi
  · rw [if_neg h]
    by_cases hmin : i < (l.take n).length
    · simp at hmin; omega
    · rw [resizeVec, List.getD_append_right _ _ _ _ (by omega)]
      exact getD_replicate_zero _ _

/-! ## Band-scan lemmas -/

lemma bandStep_le (limits : List ℚ) (numBands cb : ℕ) (f : ℚ) :
    cb ≤ bandStep limits numBands cb f ∧
    bandStep limits numBands cb f ≤ cb + 1 := by
  unfold bandStep
  split <;> omega

lemma bandStep_lt (limits : List ℚ) (numBands cb : ℕ) (f : ℚ)
    (h : cb < numBands) : bandStep limits numBands cb f < numBands := by
  unfold bandStep
  split <;> omega

lemma bandIndices_chain (limits : List ℚ) (numBands : ℕ) :
    ∀ (freqs : List ℚ) (cb : ℕ),
      List.Chain (fun x y => x ≤ y ∧ y ≤ x + 1) cb
        (bandIndices limits numBands cb freqs)
  | [], _ => List.Chain.nil
  | f :: rest, cb =>
      List.Chain.cons (bandStep_le limits numBands cb f)
        (bandIndices_chain limits numBands rest (bandStep limits numBands cb f))

lemma bandLoop_length (limits : List ℚ) (numBands : ℕ) :
    ∀ (sp : List (ℚ × ℚ)) (cb : ℕ) (bins : List ℚ) (tre : ℚ),
      (bandLoop limits numBands cb bins tre sp).1.length = bins.length
  | [], _, _, _ => rfl
  | (f, v) :: rest, cb, bins, tre => by
      rw [bandLoop, bandLoop_length limits numBands rest]
      exact List.length_set bins _ _

lemma bandLoop_treble (limits : List ℚ) (numBands : ℕ) :
    ∀ (sp : List (ℚ × ℚ)) (cb : ℕ) (bins : List ℚ) (tre : ℚ),
      (bandLoop limits numBands cb bins tre sp).2 =
        tre + ((sp.filter fun b => (4000 : ℚ) < b.1).map Prod.snd).sum
  | [], _, _, _ => by simp [bandLoop]
  | (f, v) :: rest, cb, bins, tre => by
      rw [bandLoop, bandLoop_treble limits numBands rest]
      by_cases h : (4000 : ℚ) < f
      · simp [h]
        ring
      · simp [h]

lemma bandLoop_getD (limits : List ℚ) (numBands : ℕ) :
    ∀ (sp : List (ℚ × ℚ)) (cb : ℕ) (bins : List ℚ) (tre : ℚ) (b : ℕ),
      bins.length = numBands → cb < numBands →
      (bandLoop limits numBands cb bins tre sp).1.getD b 0 =
        bins.getD b 0 +
          (List.zipWith (fun i m => if i = b then m else 0)
            (bandIndices limits numBands cb (sp.map Prod.fst))
            (sp.map Prod.snd)).sum
  | [], _, _, _, _ => by simp [bandLoop, bandIndices]
  | (f, v) :: rest, cb, bins, tre, b => by
      intro hlen hcb
      rw [bandLoop, List.map_cons, List.map_cons, bandIndices,
        List.zipWith_cons_cons, List.sum_cons,
        bandLoop_getD limits numBands rest _ _ _ b
          (by rw [List.length_set]; exact hlen)
          (bandStep_lt limits numBands cb f hcb),
        getD_set]
      have hsl : bandStep limits numBands cb f < bins.length := by
        rw [hlen]; exact bandStep_lt limits numBands cb f hcb
      by_cases hb : b = bandStep limits numBands cb f
      · rw [if_pos ⟨hb, hsl⟩, if_pos hb.symm, hb]
        ring
      · rw [if_neg (by tauto), if_neg (by tauto)]
        simp

lemma length_newBins (limits : List ℚ) (numBands : ℕ) (sp : List (ℚ × ℚ)) :
    (newBins limits numBands sp).length = numBands := by
  rw [newBins, bandLoop_length]
  exact List.length_replicate numBands 0

lemma getD_newBins (limits : List ℚ) (numBands : ℕ) (sp : List (ℚ × ℚ))
    (b : ℕ) (hn : 0 < numBands) :
    (newBins limits numBands sp).getD b 0 =
      (List.zipWith (fun i m => if i = b then m else 0)
        (bandIndices limits numBands 0 (sp.map Prod.fst))
        (sp.map Prod.snd)).sum := by
  rw [newBins, bandLoop_getD limits numBands sp 0 _ 0 b
    (List.length_replicate numBands 0) hn, getD_replicate_zero, zero_add]

lemma trebleRaw_eq_filter_sum (limits : List ℚ) (numBands : ℕ)
    (sp : List (ℚ × ℚ)) :
    trebleRaw limits numBands sp =
      ((sp.filter fun b => (4000 : ℚ) < b.1).map Prod.snd).sum := by
  rw [trebleRaw, bandLoop_treble, zero_add]

/-! ## Tick shape lemmas -/

lemma length_smoothedBins (a : AudioAnalysis) (inp : TickInput) :
    (smoothedBins a inp).length = inp.numBands := by
  rw [smoothedBins, List.length_zipWith, length_newBins]
  split
  · rw [length_resizeVec]; exact Nat.min_self _
  · omega

lemma getD_smoothedBins (a : AudioAnalysis) (inp : TickInput) (i : ℕ)
    (hi : i < inp.numBands) :
    (smoothedBins a inp).getD i 0 =
      smoothStep (if i < a.frequency_bins.length then a.frequency_bins.getD i 0 else 0)
        ((newBins inp.limits inp.numBands inp.spectrum).getD i 0) := by
  rw [smoothedBins]
  by_cases h : a.frequency_bins.length ≠ inp.numBands
  · rw [if_pos h, getD_zipWith _ _ _ i (by rw [length_resizeVec]; exact hi)
      (by rw [length_newBins]; exact hi), getD_resizeVec _ _ _ hi]
  · push_neg at h
    rw [if_neg (by omega), getD_zipWith _ _ _ i (by omega)
      (by rw [length_newBins]; exact hi), if_pos (by omega)]

lemma analysisTick_eq (a : AudioAnalysis) (buf : List ℚ) (inp : TickInput)
    (h : ¬ buf.length < fft_size) :
    analysisTick a buf inp =
      (⟨smoothedBins a inp,
        ((smoothedBins a inp).take (inp.numBands / 4)).sum,
        (((smoothedBins a inp).drop (inp.numBands / 4)).take (inp.numBands / 2)).sum,
        ((smoothedBins a inp).drop (3 * inp.numBands / 4)).sum,
        smoothStep a.treble_average (trebleRaw inp.limits inp.numBands inp.spectrum),
        volumeSqOf (analysisWindow buf),
        fluxSqOf a.previous_spectrum inp.spectrum,
        inp.spectrum⟩,
       buf.drop (drainAmount buf.length)) := by
  rw [analysisTick, if_neg h]

/-! ## Source-manager lemmas -/

lemma manage_noflag (env : AudioEnv) (mic : Option String) (now : ℚ)
    (st : EngineState) (h : st.selectedChanged = false) :
    manageAudioPlayback env mic now st = .ok st := by
  cases st with
  | mk sel ch sink mica smp pb ai an tc =>
      cases h
      simp [manageAudioPlayback]

lemma manage_ok_flag (env : AudioEnv) (mic : Option String) (now : ℚ)
    (st s' : EngineState) (hch : st.selectedChanged = true)
    (h : manageAudioPlayback env mic now st = .ok s') :
    s'.selectedChanged = false ∧ s'.teardownCount = st.teardownCount + 1 := by
  cases st with
  | mk sel ch sink mica smp pb ai an tc =>
      cases hch
      cases sel with
      | File p =>
          simp only [manageAudioPlayback, Bool.not_true, Bool.false_eq_true,
            if_false] at h
          split at h
          · exact absurd h (by simp)
          · split at h
            · exact absurd h (by simp)
            · cases h; exact ⟨rfl, rfl⟩
      | Microphone =>
          simp only [manageAudioPlayback, Bool.not_true, Bool.false_eq_true,
            if_false] at h
          split at h
          · exact absurd h (by simp)
          · split at h
            · exact absurd h (by simp)
            · split at h
              · split at h
                · cases h; exact ⟨rfl, rfl⟩
                · exact absurd h (by simp)
              · exact absurd h (by simp)
      | NoSource =>
          simp only [manageAudioPlayback, Bool.not_true, Bool.false_eq_true,
            if_false] at h
          cases h; exact ⟨rfl, rfl⟩

lemma manage_ok_analysis (env : AudioEnv) (mic : Option String) (now : ℚ)
    (st s' : EngineState)
    (h : manageAudioPlayback env mic now st = .ok s') :
    s'.analysis = st.analysis := by
  cases st with
  | mk sel ch sink mica smp pb ai an tc =>
      cases ch with
      | false =>
          simp only [manageAudioPlayback, Bool.not_false, if_true] at h
          cases h; rfl
      | true =>
          cases sel with
          | File p =>
              simp only [manageAudioPlayback, Bool.not_true, Bool.false_eq_true,
                if_false] at h
              split at h
              · exact absurd h (by simp)
              · split at h
                · exact absurd h (by simp)
                · cases h; rfl
          | Microphone =>
              simp only [manageAudioPlayback, Bool.not_true, Bool.false_eq_true,
                if_false] at h
              split at h
              · exact absurd h (by simp)
              · split at h
                · exact absurd h (by simp)
                · split at h
                  · split at h
                    · cases h; rfl
                    · exact absurd h (by simp)
                  · exact absurd h (by simp)
          | NoSource =>
              simp only [manageAudioPlayback, Bool.not_true, Bool.false_eq_true,
                if_false] at h
              cases h; rfl

/-! ## Buffer-size facts for concrete inputs -/

lemma buf1_length : buf1.length = 4096 := by
  simp only [buf1, List.length_replicate]

lemma buf1_enough : ¬ buf1.length < fft_size := by
  rw [buf1_length]; decide

lemma replicate4100_enough : fft_size ≤ (List.replicate 4100 (0 : ℚ)).length := by
  rw [List.length_replicate]; decide

/-! ## Claim theorems -/

/-- C5: on every analysis tick where the buffer length `L` is at least
`windowSize` (4096), the analysis window is exactly the first `windowSize`
buffered samples in order (witnessed by the published RMS radicand being
computed from `buf.take fft_size`), then `L - windowSize/2` samples
(saturating, i.e. `max (0, L - windowSize/2)`) are dropped from the front,
so the remaining buffer length equals `min L (windowSize/2)`. -/
theorem spec_c5_window_and_overlap :
    ∀ (a : AudioAnalysis) (buf : List ℚ) (inp : TickInput),
      fft_size ≤ buf.length →
      (analysisTick a buf inp).2 = buf.drop (buf.length - fft_size / 2) ∧
      (analysisTick a buf inp).2.length = min buf.length (fft_size / 2) ∧
      (analysisTick a buf inp).1.volumeSq = volumeSqOf (buf.take fft_size) := by
  intro a buf inp h
  rw [analysisTick_eq a buf inp (not_lt.mpr h)]
  refine ⟨?_, ?_, ?_⟩
  · simp only [drainAmount]
  · simp only [List.length_drop, drainAmount, fft_size] at h ⊢
    omega
  · simp only [analysisWindow]

/-- Witness for C5 at a concrete 4100-sample buffer: 2048 samples remain. -/
theorem spec_c5_witness :
    fft_size ≤ (List.replicate 4100 (0 : ℚ)).length ∧
    ((analysisTick initialAnalysis (List.replicate 4100 (0 : ℚ)) inp1).2 =
        (List.replicate 4100 (0 : ℚ)).drop
          ((List.replicate 4100 (0 : ℚ)).length - fft_size / 2) ∧
      (analysisTick initialAnalysis (List.replicate 4100 (0 : ℚ)) inp1).2.length =
        min (List.replicate 4100 (0 : ℚ)).length (fft_size / 2) ∧
      (analysisTick initialAnalysis (List.replicate 4100 (0 : ℚ)) inp1).1.volumeSq =
        volumeSqOf ((List.replicate 4100 (0 : ℚ)).take fft_size)) :=
  ⟨replicate4100_enough,
   spec_c5_window_and_overlap initialAnalysis (List.replicate 4100 (0 : ℚ)) inp1
     replicate4100_enough⟩

/-- C7: on every analysis tick where the buffer holds fewer than
`windowSize` (4096) samples, the tick is skipped entirely: no samples are
dropped and the published `AudioAnalysis` is unchanged in every field. -/
theorem spec_c7_insufficient_data_skips_tick :
    ∀ (a : AudioAnalysis) (buf : List ℚ) (inp : TickInput),
      buf.length < fft_size → analysisTick a buf inp = (a, buf) := by
  intro a buf inp h
  rw [analysisTick, if_pos h]

/-- Witness for C7 at the empty buffer. -/
theorem spec_c7_witness :
    ([] : List ℚ).length < fft_size ∧
    analysisTick a9 [] inp1 = (a9, []) :=
  ⟨by decide, spec_c7_insufficient_data_skips_tick a9 [] inp1 (by decide)⟩

/-- C8: on every analysis tick with sufficient data the published `flux`
(the square root of the stored radicand) equals the Euclidean distance
`sqrt (Σ (cur - prev)^2)` between the current and prior per-bin magnitude
vectors, and equals 0 when no prior spectrum exists or the bin counts
differ. -/
theorem spec_c8_flux_euclidean :
    ∀ (a : AudioAnalysis) (buf : List ℚ) (inp : TickInput),
      ¬ buf.length < fft_size →
      Real.sqrt (((analysisTick a buf inp).1.fluxSq : ℚ) : ℝ) =
        if a.previous_spectrum ≠ [] ∧
            a.previous_spectrum.length = inp.spectrum.length then
          Real.sqrt
            ((((List.zipWith (fun c p => (c.2 - p.2) ^ 2) inp.spectrum
                a.previous_spectrum).sum : ℚ) : ℝ))
        else 0 := by
  intro a buf inp h
  rw [analysisTick_eq a buf inp h]
  by_cases hc : a.previous_spectrum ≠ [] ∧
      a.previous_spectrum.length = inp.spectrum.length
  · rw [if_pos hc]
    simp only [fluxSqOf, if_pos hc]
  · rw [if_neg hc]
    simp only [fluxSqOf, if_neg hc, Rat.cast_zero, Real.sqrt_zero]

/-- Witness for C8 at a matching one-bin prior spectrum. -/
theorem spec_c8_witness :
    ¬ buf1.length < fft_size ∧
    Real.sqrt (((analysisTick a10 buf1 inp10).1.fluxSq : ℚ) : ℝ) =
      (if a10.previous_spectrum ≠ [] ∧
          a10.previous_spectrum.length = inp10.spectrum.length then
        Real.sqrt
          ((((List.zipWith (fun c p => (c.2 - p.2) ^ 2) inp10.spectrum
              a10.previous_spectrum).sum : ℚ) : ℝ))
      else 0) :=
  ⟨buf1_enough, spec_c8_flux_euclidean a10 buf1 inp10 buf1_enough⟩

/-- C9: on every analysis tick with sufficient data (and an unchanged band
count), each band value and the `trebleAverage` aggregate (the sum of
spectral-bin magnitudes strictly above 4000 Hz) is exponentially smoothed
independently by `smoothed = smoothed * α + raw * (1 - α)` with `α = 1/2`. -/
theorem spec_c9_exponential_smoothing :
    ∀ (a : AudioAnalysis) (buf : List ℚ) (inp : TickInput),
      ¬ buf.length < fft_size →
      a.frequency_bins.length = inp.numBands →
      smoothing = 1 / 2 ∧
      (∀ i, i < inp.numBands →
        (analysisTick a buf inp).1.frequency_bins.getD i 0 =
          a.frequency_bins.getD i 0 * smoothing +
            (newBins inp.limits inp.numBands inp.spectrum).getD i 0 *
              (1 - smoothing)) ∧
      (analysisTick a buf inp).1.treble_average =
        a.treble_average * smoothing +
          ((inp.spectrum.filter fun b => (4000 : ℚ) < b.1).map Prod.snd).sum *
            (1 - smoothing) := by
  intro a buf inp h hlen
  rw [analysisTick_eq a buf inp h]
  refine ⟨rfl, ?_, ?_⟩
  · intro i hi
    have hg := getD_smoothedBins a inp i hi
    rw [if_pos (by omega)] at hg
    simpa [smoothStep] using hg
  · rw [← trebleRaw_eq_filter_sum inp.limits inp.numBands inp.spectrum]
    rfl

/-- Witness for C9 at a three-band prior state. -/
theorem spec_c9_witness :
    (¬ buf1.length < fft_size ∧ a9.frequency_bins.length = inp1.numBands) ∧
    (smoothing = 1 / 2 ∧
      (∀ i, i < inp1.numBands →
        (analysisTick a9 buf1 inp1).1.frequency_bins.getD i 0 =
          a9.frequency_bins.getD i 0 * smoothing +
            (newBins inp1.limits inp1.numBands inp1.spectrum).getD i 0 *
              (1 - smoothing)) ∧
      (analysisTick a9 buf1 inp1).1.treble_average =
        a9.treble_average * smoothing +
          ((inp1.spectrum.filter fun b => (4000 : ℚ) < b.1).map Prod.snd).sum *
            (1 - smoothing)) :=
  ⟨⟨buf1_enough, by decide⟩,
   spec_c9_exponential_smoothing a9 buf1 inp1 buf1_enough (by decide)⟩

lemma volumeSq_buf1 : volumeSqOf (analysisWindow buf1) = 0 := by
  rw [analysisWindow, buf1, List.take_replicate]
  simp [volumeSqOf, List.map_replicate, List.sum_replicate]

/-- C3 counterexample: with prior smoothed bands `[1, 1]` (numBands was 2)
and `numBands` reconfigured to 4, the tick publishes `[1/2, 1/2, 0, 0]` —
`Vec::resize` keeps the retained prefix, so prior smoothing state is NOT
discarded and the array is not zero-filled before accumulation (the claim
predicts `[0, 0, 0, 0]` for an empty spectrum). -/
theorem spec_c3_counterexample :
    (analysisTick a3 buf1 inp3).1.frequency_bins = [1/2, 1/2, 0, 0] ∧
    ([1/2, 1/2, 0, 0] : List ℚ) ≠ List.replicate 4 0 := by
  constructor
  · rw [analysisTick_eq a3 buf1 inp3 buf1_enough]
    norm_num [smoothedBins, a3, inp3, resizeVec, newBins, bandLoop, bandStep,
      smoothStep, smoothing, show List.replicate 2 (0 : ℚ) = [0, 0] from rfl,
      show List.replicate 4 (0 : ℚ) = [0, 0, 0, 0] from rfl]
  · norm_num [show List.replicate 4 (0 : ℚ) = [0, 0, 0, 0] from rfl]

/-- C3 amended: at every analysis tick with sufficient data the published
band array has exactly `numBands` elements, but the resize is not
zero-filled: each retained slot (index below the prior length) keeps its
prior smoothed value as the smoothing history, and only slots beyond the
prior length start from zero. -/
theorem spec_c3_resize_keeps_prefix :
    ∀ (a : AudioAnalysis) (buf : List ℚ) (inp : TickInput),
      ¬ buf.length < fft_size →
      (analysisTick a buf inp).1.frequency_bins.length = inp.numBands ∧
      ∀ i, i < inp.numBands →
        (analysisTick a buf inp).1.frequency_bins.getD i 0 =
          (if i < a.frequency_bins.length then a.frequency_bins.getD i 0
            else 0) * smoothing +
            (newBins inp.limits inp.numBands inp.spectrum).getD i 0 *
              (1 - smoothing) := by
  intro a buf inp h
  rw [analysisTick_eq a buf inp h]
  exact ⟨length_smoothedBins a inp, fun i hi => by
    simpa [smoothStep] using getD_smoothedBins a inp i hi⟩

/-- Witness for the amended C3 at the 2-to-4 reconfiguration input. -/
theorem spec_c3_witness :
    ¬ buf1.length < fft_size ∧
    ((analysisTick a3 buf1 inp3).1.frequency_bins.length = inp3.numBands ∧
      ∀ i, i < inp3.numBands →
        (analysisTick a3 buf1 inp3).1.frequency_bins.getD i 0 =
          (if i < a3.frequency_bins.length then a3.frequency_bins.getD i 0
            else 0) * smoothing +
            (newBins inp3.limits inp3.numBands inp3.spectrum).getD i 0 *
              (1 - smoothing)) :=
  ⟨buf1_enough, spec_c3_resize_keeps_prefix a3 buf1 inp3 buf1_enough⟩

/-- C1 counterexample: the snapshot published from the default state on
`inp1` carries no field equal to the spec's centroid (175) or rolloff
(200) of that spectrum — the code computes neither feature (`AudioAnalysis`
in src/audio.rs:214-225 has no such fields). -/
theorem spec_c1_counterexample :
    specCentroid inp1.spectrum = 175 ∧ specRolloff inp1.spectrum = 200 ∧
    ¬ publishesScalar out1 175 ∧ ¬ publishesScalar out1 200 := by
  have hb : smoothedBins initialAnalysis inp1 = [2, 0, 0] := by
    norm_num [smoothedBins, initialAnalysis, inp1, resizeVec, newBins,
      bandLoop, bandStep, smoothStep, smoothing,
      show List.replicate 3 (0 : ℚ) = [0, 0, 0] from rfl]
  have hout : out1 = ⟨[2, 0, 0], 0, 2, 0, 0, 0, 0, [(100, 1), (200, 3)]⟩ := by
    rw [out1, analysisTick_eq initialAnalysis buf1 inp1 buf1_enough, hb,
      volumeSq_buf1]
    norm_num [inp1, initialAnalysis, trebleRaw, bandLoop, bandStep, fluxSqOf,
      smoothStep, smoothing, show List.replicate 3 (0 : ℚ) = [0, 0, 0] from rfl]
  refine ⟨by norm_num [specCentroid, inp1], ?_, ?_, ?_⟩
  · norm_num [specRolloff, rolloffFrom, inp1]
  · rw [hout]; norm_num [publishesScalar]
  · rw [hout]; norm_num [publishesScalar]

/-- C1 amended: the analyzer computes no spectral centroid and no spectral
rolloff; on every analysis tick with sufficient data the published snapshot
consists exactly of the smoothed band array (of length `numBands`), the
quartile aggregates `bass`/`mid`/`treble` over it, the smoothed
`trebleAverage`, the RMS `volume` of the first `windowSize` buffered
samples, `flux`, and the retained raw spectrum. -/
theorem spec_c1_published_features :
    ∀ (a : AudioAnalysis) (buf : List ℚ) (inp : TickInput),
      ¬ buf.length < fft_size →
      (analysisTick a buf inp).1.volumeSq = volumeSqOf (buf.take fft_size) ∧
      (analysisTick a buf inp).1.fluxSq =
        fluxSqOf a.previous_spectrum inp.spectrum ∧
      (analysisTick a buf inp).1.treble_average =
        a.treble_average * smoothing +
          trebleRaw inp.limits inp.numBands inp.spectrum * (1 - smoothing) ∧
      (analysisTick a buf inp).1.frequency_bins.length = inp.numBands ∧
      (analysisTick a buf inp).1.bass =
        ∑ i in Finset.range (inp.numBands / 4),
          (analysisTick a buf inp).1.frequency_bins.getD i 0 ∧
      (analysisTick a buf inp).1.mid =
        ∑ i in Finset.range (inp.numBands / 2),
          (analysisTick a buf inp).1.frequency_bins.getD
            (inp.numBands / 4 + i) 0 ∧
      (analysisTick a buf inp).1.treble =
        ∑ i in Finset.range (inp.numBands - 3 * inp.numBands / 4),
          (analysisTick a buf inp).1.frequency_bins.getD
            (3 * inp.numBands / 4 + i) 0 ∧
      (analysisTick a buf inp).1.previous_spectrum = inp.spectrum := by
  intro a buf inp h
  rw [analysisTick_eq a buf inp h]
  have hlen := length_smoothedBins a inp
  refine ⟨?_, ?_, ?_, hlen, ?_, ?_, ?_, ?_⟩
  · simp only [analysisWindow]
  · simp only []
  · simp only [smoothStep]
  · exact sum_take_eq_range _ _ (by omega)
  · exact sum_drop_take_eq_range _ _ _ (by omega)
  · rw [sum_drop_eq_range, hlen]
  · simp only []

/-- Witness for the amended C1 at a three-band prior state. -/
theorem spec_c1_witness :
    ¬ buf1.length < fft_size ∧
    ((analysisTick a9 buf1 inp1).1.volumeSq = volumeSqOf (buf1.take fft_size) ∧
      (analysisTick a9 buf1 inp1).1.fluxSq =
        fluxSqOf a9.previous_spectrum inp1.spectrum ∧
      (analysisTick a9 buf1 inp1).1.treble_average =
        a9.treble_average * smoothing +
          trebleRaw inp1.limits inp1.numBands inp1.spectrum * (1 - smoothing) ∧
      (analysisTick a9 buf1 inp1).1.frequency_bins.length = inp1.numBands ∧
      (analysisTick a9 buf1 inp1).1.bass =
        ∑ i in Finset.range (inp1.numBands / 4),
          (analysisTick a9 buf1 inp1).1.frequency_bins.getD i 0 ∧
      (analysisTick a9 buf1 inp1).1.mid =
        ∑ i in Finset.range (inp1.numBands / 2),
          (analysisTick a9 buf1 inp1).1.frequency_bins.getD
            (inp1.numBands / 4 + i) 0 ∧
      (analysisTick a9 buf1 inp1).1.treble =
        ∑ i in Finset.range (inp1.numBands - 3 * inp1.numBands / 4),
          (analysisTick a9 buf1 inp1).1.frequency_bins.getD
            (3 * inp1.numBands / 4 + i) 0 ∧
      (analysisTick a9 buf1 inp1).1.previous_spectrum = inp1.spectrum) :=
  ⟨buf1_enough, spec_c1_published_features a9 buf1 inp1 buf1_enough⟩

/-- C6 counterexample: with `numBands = 3` the code's edge formula
`20 * (20000/20)^((i+1)/numBands)` gives exactly the edges
`[200, 2000, 20000]`; on that configuration a first spectral bin at
2500 Hz belongs to band 2 under the claim's lowest-index characterisation
(2500 ≤ 20000 but 2500 > 2000), yet the scan advances `current_band` by at
most one per bin and accumulates the bin's magnitude into band 1, whose
upper edge (2000) the bin's frequency exceeds. -/
theorem spec_c6_counterexample :
    ((200 : ℝ) = 20 * (1000 : ℝ) ^ (((0 : ℝ) + 1) / 3) ∧
      (2000 : ℝ) = 20 * (1000 : ℝ) ^ (((1 : ℝ) + 1) / 3) ∧
      (20000 : ℝ) = 20 * (1000 : ℝ) ^ (((2 : ℝ) + 1) / 3)) ∧
    specLowestBand [200, 2000, 20000] 2500 = 2 ∧
    bandIndices [200, 2000, 20000] 3 0 [2500] = [1] ∧
    newBins [200, 2000, 20000] 3 [(2500, 5)] = [0, 5, 0] ∧
    (1 : ℕ) ≠ 2 := by
  have hkey : ∀ q : ℝ, (1000 : ℝ) ^ q = 10 ^ (3 * q) := by
    intro q
    rw [show (1000 : ℝ) = 10 ^ (3 : ℝ) by
      rw [show (3 : ℝ) = ((3 : ℕ) : ℝ) by norm_num, Real.rpow_natCast]
      norm_num]
    rw [Real.rpow_mul (by norm_num : (0 : ℝ) ≤ 10)]
  refine ⟨⟨?_, ?_, ?_⟩, ?_, ?_, ?_, by norm_num⟩
  · rw [hkey]; norm_num
  · rw [hkey]; norm_num
  · rw [hkey]; norm_num
  · norm_num [specLowestBand, List.findIdx, List.findIdx.go]
  · norm_num [bandIndices, bandStep]
  · norm_num [newBins, bandLoop, bandStep,
      show List.replicate 3 (0 : ℚ) = [0, 0, 0] from rfl]

/-- C6 amended: the band scan is monotone and single-pass — along the
spectrum the band index never decreases and advances by at most one per
bin — and each bin's magnitude accumulates into the scan's current band
index, i.e. `new_bins[b]` is exactly the sum of the magnitudes of the bins
the scan assigns index `b`.  (A bin whose frequency exceeds more than one
further edge is therefore accumulated into a band whose upper edge it
exceeds, unlike the lowest-index characterisation; see the
counterexample.) -/
theorem spec_c6_monotone_single_pass :
    (∀ (limits : List ℚ) (numBands cb : ℕ) (freqs : List ℚ),
        List.Chain (fun x y => x ≤ y ∧ y ≤ x + 1) cb
          (bandIndices limits numBands cb freqs)) ∧
    (∀ (limits : List ℚ) (numBands : ℕ) (sp : List (ℚ × ℚ)) (b : ℕ),
        0 < numBands →
        (newBins limits numBands sp).getD b 0 =
          (List.zipWith (fun i m => if i = b then m else 0)
            (bandIndices limits numBands 0 (sp.map Prod.fst))
            (sp.map Prod.snd)).sum) :=
  ⟨fun limits numBands cb freqs => bandIndices_chain limits numBands freqs cb,
   fun limits numBands sp b hn => getD_newBins limits numBands sp b hn⟩

/-- Witness for the amended C6 on a two-bin spectrum crossing one edge. -/
theorem spec_c6_witness :
    List.Chain (fun x y => x ≤ y ∧ y ≤ x + 1) 0
      (bandIndices [200, 2000, 20000] 3 0 [150, 2500]) ∧
    0 < 3 ∧
    (newBins [200, 2000, 20000] 3 [(150, 7), (2500, 5)]).getD 1 0 =
      (List.zipWith (fun i m => if i = 1 then m else 0)
        (bandIndices [200, 2000, 20000] 3 0
          ([(150, 7), (2500, 5)].map Prod.fst))
        ([(150, 7), (2500, 5)].map Prod.snd)).sum :=
  ⟨spec_c6_monotone_single_pass.1 [200, 2000, 20000] 3 0 [150, 2500],
   by norm_num,
   spec_c6_monotone_single_pass.2 [200, 2000, 20000] 3
     [(150, 7), (2500, 5)] 1 (by norm_num)⟩

/-- C2: when reading the selected file fails, the attempted source
transition does not surface a failure result — `manage_audio_playback`
panics (src/audio.rs:268 `.expect("Failed to read music file for
playback")`), crashing the process instead of logging the error and
leaving the source in a `None`/non-playing state. -/
theorem spec_c2_missing_file_panics :
    ∀ (env : AudioEnv) (mic : Option String) (now : ℚ) (st : EngineState)
      (p : String),
      env.readFile p = none →
      manageAudioPlayback env mic now (setSource (.File p) st) =
        .error "Failed to read music file for playback" := by
  intro env mic now st p h
  cases st with
  | mk sel ch sink mica smp pb ai an tc =>
      simp [setSource, manageAudioPlayback, h]

/-- Witness for C2: a missing file makes the transition panic. -/
theorem spec_c2_witness :
    envNoFile.readFile "missing.mp3" = none ∧
    manageAudioPlayback envNoFile none 0 (setSource (.File "missing.mp3") st0) =
      .error "Failed to read music file for playback" :=
  ⟨rfl, spec_c2_missing_file_panics envNoFile none 0 st0 "missing.mp3" rfl⟩

/-- C4 counterexample: writing `.Microphone` into the selection twice in a
row re-runs the teardown/setup sequence on each run — after the second
identical `setSource` write the ghost teardown counter is 2, not 1, because
Bevy change detection marks the resource changed on every write, not on
value change. -/
theorem spec_c4_counterexample :
    manageAudioPlayback env0 none 0 (setSource .Microphone st0) = .ok s1Mic ∧
    s1Mic.teardownCount = 1 ∧
    manageAudioPlayback env0 none 0 (setSource .Microphone s1Mic) =
      .ok { s1Mic with teardownCount := 2 } :=
  ⟨rfl, rfl, rfl⟩

/-- C4 amended: `manage_audio_playback` is a no-op exactly when the
`SelectedAudioSource` resource has not been written since its last run;
every write — including one that re-writes the currently selected value —
re-triggers the full teardown/setup sequence, so a second consecutive
`setSource` with the same selection performs the sequence a second time. -/
theorem spec_c4_rerun_on_same_value :
    ∀ (env : AudioEnv) (mic : Option String) (now : ℚ) (st : EngineState)
      (v : AudioSrc) (s₁ : EngineState),
      manageAudioPlayback env mic now (setSource v st) = .ok s₁ →
      s₁.teardownCount = st.teardownCount + 1 ∧
      manageAudioPlayback env mic now s₁ = .ok s₁ ∧
      ∀ s₂, manageAudioPlayback env mic now (setSource v s₁) = .ok s₂ →
        s₂.teardownCount = st.teardownCount + 2 := by
  intro env mic now st v s₁ h₁
  have inv₁ := manage_ok_flag env mic now (setSource v st) s₁ rfl h₁
  have hc₁ : s₁.teardownCount = st.teardownCount + 1 := inv₁.2
  refine ⟨hc₁, manage_noflag env mic now s₁ inv₁.1, ?_⟩
  intro s₂ h₂
  have inv₂ := manage_ok_flag env mic now (setSource v s₁) s₂ rfl h₂
  have hc₂ : s₂.teardownCount = s₁.teardownCount + 1 := inv₂.2
  omega

/-- Witness for the amended C4 with the `.NoSource` selection. -/
theorem spec_c4_witness :
    manageAudioPlayback env0 none 0 (setSource .NoSource st0) = .ok s1None ∧
    s1None.teardownCount = st0.teardownCount + 1 ∧
    manageAudioPlayback env0 none 0 s1None = .ok s1None :=
  ⟨rfl,
   (spec_c4_rerun_on_same_value env0 none 0 st0 .NoSource s1None rfl).1,
   (spec_c4_rerun_on_same_value env0 none 0 st0 .NoSource s1None rfl).2.1⟩

/-- C10: the teardown performed on a source change never touches the
analysis state, so `previous_spectrum` survives into the new source; the
first analysis tick of the new source whose bin count matches that retained
spectrum computes its flux against the old source's last spectrum — at the
concrete input the published flux radicand is `(5 - 2)^2 = 9`, not 0. -/
theorem spec_c10_flux_across_source_change :
    (∀ (env : AudioEnv) (mic : Option String) (now : ℚ)
        (st s' : EngineState),
        manageAudioPlayback env mic now st = .ok s' →
        s'.analysis.previous_spectrum = st.analysis.previous_spectrum) ∧
    (∀ (a : AudioAnalysis) (buf : List ℚ) (inp : TickInput),
        ¬ buf.length < fft_size →
        a.previous_spectrum ≠ [] →
        a.previous_spectrum.length = inp.spectrum.length →
        (analysisTick a buf inp).1.fluxSq =
          (List.zipWith (fun c p => (c.2 - p.2) ^ 2) inp.spectrum
            a.previous_spectrum).sum) ∧
    (analysisTick a10 buf1 inp10).1.fluxSq = 9 := by
  refine ⟨?_, ?_, ?_⟩
  · intro env mic now st s' h
    rw [manage_ok_analysis env mic now st s' h]
  · intro a buf inp h hne hlen
    rw [analysisTick_eq a buf inp h]
    simp only [fluxSqOf, if_pos (And.intro hne hlen)]
  · rw [analysisTick_eq a10 buf1 inp10 buf1_enough]
    norm_num [fluxSqOf, a10, inp10]

/-- Witness for C10: a teardown from a state retaining a spectrum, and the
following tick against a matching one-bin spectrum. -/
theorem spec_c10_witness :
    manageAudioPlayback env0 none 0 stPrev = .ok sPrev ∧
    sPrev.analysis.previous_spectrum = stPrev.analysis.previous_spectrum ∧
    ¬ buf1.length < fft_size ∧
    a10.previous_spectrum ≠ [] ∧
    a10.previous_spectrum.length = inp10.spectrum.length ∧
    (analysisTick a10 buf1 inp10).1.fluxSq =
      (List.zipWith (fun c p => (c.2 - p.2) ^ 2) inp10.spectrum
        a10.previous_spectrum).sum :=
  ⟨rfl,
   spec_c10_flux_across_source_change.1 env0 none 0 stPrev sPrev rfl,
   buf1_enough,
   by simp [a10],
   rfl,
   spec_c10_flux_across_source_change.2.1 a10 buf1 inp10 buf1_enough
     (by simp [a10]) rfl⟩

end RustViz
